import Mathlib

/-!
Verification of the A2L extraction engine (data_utils.py): a shallow
embedding of the text normalizer, the line scanner, the per-block-type
extractors, the store and the substring search, together with theorems
settling the specified properties.

Strings are modelled as lists of characters (`Str`); files are lists of
lines.  Python dictionaries are modelled as association lists with
insertion-order-preserving overwrite (`dictInsert`).
-/

set_option maxHeartbeats 1000000

abbrev Str := List Char

/-- Whitespace set used by Python str.strip / str.split / regex ws
(ASCII subset, which is all the scanner relies on). -/
def isWs (c : Char) : Bool :=
  c == ' ' || c == '\t' || c == '\n' || c == '\r' || c == '\x0b' || c == '\x0c'

/-- Word character, as in the regex class w (ASCII subset). -/
def isWordChar (c : Char) : Bool := c.isAlphanum || c == '_'

/-- Case-insensitive character equality (re.IGNORECASE). -/
def eqCi (a b : Char) : Bool := a.toLower == b.toLower

/-- Case-insensitively test whether needle starts the haystack. -/
def ciStarts : Str → Str → Bool
  | [], _ => true
  | _ :: _, [] => false
  | c :: cs, d :: ds => eqCi c d && ciStarts cs ds

/-- Helper for whitespace splitting (Python str.split with no argument). -/
def wordsAux : List Char → List Char → List (List Char)
  | [], acc => if acc.isEmpty then [] else [acc.reverse]
  | c :: cs, acc =>
    if isWs c then
      if acc.isEmpty then wordsAux cs [] else acc.reverse :: wordsAux cs []
    else
      wordsAux cs (c :: acc)

/-- Whitespace tokenisation: line.split() in the source. -/
def words (l : Str) : List Str := wordsAux l []

/-- Space-joining of tokens: " ".join(params) in the source. -/
def joinWords : List Str → Str
  | [] => []
  | [w] => w
  | w :: ws => w ++ ' ' :: joinWords ws

/-- Remove trailing whitespace (right half of Python str.strip). -/
def trimR : Str → Str
  | [] => []
  | c :: cs =>
    match trimR cs with
    | [] => if isWs c then [] else [c]
    | r => c :: r

/-- Python str.strip(): drop leading and trailing whitespace. -/
def trim (l : Str) : Str := trimR (l.dropWhile isWs)

/-- Replacement pass of clean_text: the regex sub mapping each CRLF, LF
or CR occurrence (leftmost-first, CRLF preferred) to one space. -/
def replNl : Str → Str
  | [] => []
  | '\r' :: '\n' :: rest => ' ' :: replNl rest
  | '\r' :: rest => ' ' :: replNl rest
  | '\n' :: rest => ' ' :: replNl rest
  | c :: rest => c :: replNl rest

/-- clean_text from data_utils.py: empty (or absent) input yields the
empty string, otherwise every newline variant becomes a space and the
result is stripped. -/
def clean_text (l : Str) : Str :=
  if l = [] then [] else trim (replNl l)

/-- Substring containment, Python (needle in haystack). -/
def listContains (hay needle : Str) : Bool :=
  match hay with
  | [] => needle.isEmpty
  | _ :: t => needle.isPrefixOf hay || listContains t needle

/-- Python str.lower (ASCII subset). -/
def lowerS (l : Str) : Str := l.map Char.toLower

/-- Python str.upper (ASCII subset). -/
def upper (l : Str) : Str := l.map Char.toUpper

/-- Model of extract_symbol: the first double-quoted nonempty substring
on the line (regex search), or empty when there is none. -/
def extract_symbol : Str → Str
  | [] => []
  | '"' :: rest =>
    let w := rest.takeWhile (fun c => !(c == '"'))
    if w.isEmpty then extract_symbol rest
    else if (rest.dropWhile (fun c => !(c == '"'))).isEmpty then extract_symbol rest
    else w
  | _ :: rest => extract_symbol rest

/- Facts about trimming, needed for idempotence of clean_text. -/

theorem trimR_eq_reverse_dropWhile (l : Str) :
    trimR l = (l.reverse.dropWhile isWs).reverse := by
  induction l with
  | nil => rfl
  | cons c cs ih =>
    rw [List.reverse_cons, List.dropWhile_append]
    rcases h : trimR cs with _ | ⟨r, rs⟩
    · have h0 : cs.reverse.dropWhile isWs = [] := by
        have h1 := h
        rw [ih] at h1
        simpa using h1
      rw [h0]
      simp only [List.isEmpty_nil, if_pos]
      show trimR (c :: cs) = (List.dropWhile isWs [c]).reverse
      simp only [trimR, h]
      by_cases hc : isWs c
      · simp [List.dropWhile, hc]
      · simp [List.dropWhile, hc]
    · have h0 : cs.reverse.dropWhile isWs = (r :: rs).reverse := by
        have h1 := h
        rw [ih] at h1
        have h2 := congrArg List.reverse h1
        simpa using h2
      show trimR (c :: cs) = _
      simp only [trimR, h, h0]
      have hne : ((r :: rs).reverse).isEmpty = false := by simp
      rw [hne]
      simp

theorem dropWhile_idem (p : Char → Bool) (l : Str) :
    (l.dropWhile p).dropWhile p = l.dropWhile p := by
  induction l with
  | nil => rfl
  | cons c cs ih =>
    by_cases h : p c
    · simp [List.dropWhile, h, ih]
    · simp [List.dropWhile, h]

theorem trim_idem (l : Str) : trim (trim l) = trim l := by
  have hrev : ∀ x : Str, trim x = ((x.dropWhile isWs).reverse.dropWhile isWs).reverse := by
    intro x
    rw [trim, trimR_eq_reverse_dropWhile]
  rw [hrev l, hrev]
  set A := l.dropWhile isWs with hA
  have hAhead : A.dropWhile isWs = A := by rw [hA]; rw [dropWhile_idem]
  set B := (A.reverse.dropWhile isWs).reverse with hB
  have hBpre : B.dropWhile isWs = B := by
    have hsub : A.reverse.dropWhile isWs <:+ A.reverse := List.dropWhile_suffix _
    have hpre : B <+: A := by
      rw [hB]
      have h1 := hsub.reverse
      simpa using h1
    rcases hpre with ⟨t, ht⟩
    rcases hBcase : B with _ | ⟨b, bs⟩
    · rfl
    · have hbA : A = b :: (bs ++ t) := by rw [← ht, hBcase]; simp
      have hb : isWs b = false := by
        by_cases hw : isWs b
        · exfalso
          have h2 := hAhead
          rw [hbA] at h2
          rw [List.dropWhile_cons] at h2
          simp only [hw, if_pos] at h2
          have hlen := congrArg List.length h2
          have hle := (List.dropWhile_suffix (p := isWs) (l := bs ++ t)).length_le
          rw [List.length_cons] at hlen
          omega
        · simpa using hw
      rw [List.dropWhile_cons]
      simp [hb]
  rw [hBpre]
  have hBrev : B.reverse = A.reverse.dropWhile isWs := by rw [hB]; simp
  rw [hBrev, dropWhile_idem, ← hBrev]
  simp

/-- Characters of the trimmed string come from the original. -/
theorem mem_trim {c : Char} {l : Str} (h : c ∈ trim l) : c ∈ l := by
  rw [trim, trimR_eq_reverse_dropWhile] at h
  have h1 : c ∈ (l.dropWhile isWs).reverse.dropWhile isWs := by simpa using h
  have h2 : c ∈ (l.dropWhile isWs).reverse := (List.dropWhile_suffix _).subset h1
  have h3 : c ∈ l.dropWhile isWs := by simpa using h2
  exact (List.dropWhile_suffix _).subset h3

theorem replNl_cons_cr (b : Char) (rest : Str) (h : ¬ b = '\n') :
    replNl ('\r' :: b :: rest) = ' ' :: replNl (b :: rest) := by
  rw [replNl.eq_def]
  split
  · rename_i heq; cases heq
  · rename_i heq
    injection heq with e1 e2
    injection e2 with e3 e4
    exact absurd e3 h
  · rename_i hcon heq
    injection heq with e1 e2
    subst e2
    rfl
  · rename_i heq
    injection heq with e1 e2
    exact absurd e1 (by decide)
  · rename_i hall hcr hlf heq
    injection heq with e1 e2
    exact absurd e1.symm hcr

theorem replNl_cons_other (c : Char) (cs : Str) (h1 : ¬ c = '\r') (h2 : ¬ c = '\n') :
    replNl (c :: cs) = c :: replNl cs := by
  rw [replNl.eq_def]
  split
  · rename_i heq; cases heq
  · rename_i heq
    injection heq with e1 e2
    exact absurd e1 h1
  · rename_i hcon heq
    injection heq with e1 e2
    exact absurd e1 h1
  · rename_i heq
    injection heq with e1 e2
    exact absurd e1 h2
  · rename_i hall hcr hlf heq
    injection heq with e1 e2
    subst e1
    subst e2
    rfl

/-- The replacement pass leaves no CR or LF behind. -/
theorem replNl_no_nl (l : Str) : ∀ c ∈ replNl l, ¬ c = '\r' ∧ ¬ c = '\n' := by
  have key : ∀ n (l : Str), l.length ≤ n → ∀ c ∈ replNl l, ¬ c = '\r' ∧ ¬ c = '\n' := by
    intro n
    induction n with
    | zero =>
      intro l hl c hc
      have hnil : l = [] := List.eq_nil_of_length_eq_zero (Nat.le_zero.mp hl)
      subst hnil
      simp [replNl] at hc
    | succ n ih =>
      intro l hl c hc
      rcases l with _ | ⟨a, rest⟩
      · simp [replNl] at hc
      · by_cases ha : a = '\r'
        · subst ha
          rcases rest with _ | ⟨b, rest2⟩
          · rw [show replNl ['\r'] = [' '] from rfl] at hc
            simp at hc
            subst hc
            exact ⟨by decide, by decide⟩
          · by_cases hb : b = '\n'
            · subst hb
              rw [show replNl ('\r' :: '\n' :: rest2) = ' ' :: replNl rest2 from rfl] at hc
              rcases List.mem_cons.mp hc with h | h
              · subst h; exact ⟨by decide, by decide⟩
              · exact ih rest2 (by simp at hl; omega) c h
            · rw [replNl_cons_cr b rest2 hb] at hc
              rcases List.mem_cons.mp hc with h | h
              · subst h; exact ⟨by decide, by decide⟩
              · exact ih (b :: rest2) (by simp at hl ⊢; omega) c h
        · by_cases ha2 : a = '\n'
          · subst ha2
            rw [show ∀ r, replNl ('\n' :: r) = ' ' :: replNl r from fun r => rfl] at hc
            rcases List.mem_cons.mp hc with h | h
            · subst h; exact ⟨by decide, by decide⟩
            · exact ih rest (by simp at hl ⊢; omega) c h
          · rw [replNl_cons_other a rest ha ha2] at hc
            rcases List.mem_cons.mp hc with h | h
            · subst h; exact ⟨ha, ha2⟩
            · exact ih rest (by simp at hl ⊢; omega) c h
  exact key l.length l (le_refl _)

/-- The replacement pass fixes strings without CR or LF. -/
theorem replNl_fixed (l : Str) (h : ∀ c ∈ l, ¬ c = '\r' ∧ ¬ c = '\n') :
    replNl l = l := by
  induction l with
  | nil => rfl
  | cons c cs ih =>
    have hc := h c (by simp)
    have hcs : ∀ x ∈ cs, ¬ x = '\r' ∧ ¬ x = '\n' :=
      fun x hx => h x (List.mem_cons_of_mem _ hx)
    rw [replNl_cons_other c cs hc.1 hc.2, ih hcs]

/-- C6. The text normalizer is idempotent: normalising twice gives the
same result as normalising once, for every string (empty and
whitespace-only strings included). -/
theorem clean_text_idempotent (s : Str) :
    clean_text (clean_text s) = clean_text s := by
  by_cases h : s = []
  · subst h; rfl
  · have hs : clean_text s = trim (replNl s) := by rw [clean_text, if_neg h]
    rw [hs, clean_text]
    by_cases h2 : trim (replNl s) = []
    · rw [if_pos h2]
      exact h2.symm
    · rw [if_neg h2]
      have hno : ∀ c ∈ trim (replNl s), ¬ c = '\r' ∧ ¬ c = '\n' :=
        fun c hc => replNl_no_nl s c (mem_trim hc)
      rw [replNl_fixed _ hno, trim_idem]

/-- Record: the Python dict produced for one block, modelled as an
association list of (key, value) in insertion order. -/
abbrev Record := List (String × Str)

/-- Store: the Python dict keyed by block name. -/
abbrev Rstore := List (Str × Record)

/-- Field access det.get(key, "") on a Record. -/
def rget (r : Record) (k : String) : Str :=
  match r.find? (fun p => p.1 == k) with
  | some p => p.2
  | none => []

/-- Python dict insertion d[k] = v: overwrite in place when the key
exists (keeping its position), append at the end otherwise. -/
def dictInsert {α : Type} [BEq α] {β : Type} (m : List (α × β)) (k : α) (v : β) :
    List (α × β) :=
  if m.any (fun p => p.1 == k) then
    m.map (fun p => if p.1 == k then (k, v) else p)
  else
    m ++ [(k, v)]

/-- The data-type token set DTOK of data_utils.py. -/
def DTOK : List Str :=
  ["UBYTE".data, "SBYTE".data, "UWORD".data, "SWORD".data, "ULONG".data,
   "SLONG".data, "FLOAT16_IEEE".data, "FLOAT32_IEEE".data, "FLOAT64_IEEE".data,
   "DOUBLE".data, "U64".data, "S64".data]

/-- Loop state of parse_measurement_like: the six local variables. -/
structure MState where
  dtype : Str
  conversion : Str
  params : List Str
  addr : Str
  symbol : Str
  array_size : Str
deriving DecidableEq, Repr

/-- The branches of the parse_measurement_like loop body that are not
keyed on a data-type token (ECU_ADDRESS, ARRAY_SIZE, SYMBOL_LINK). -/
def mrest (st : MState) (line : Str) : MState :=
  if "ECU_ADDRESS".data.isPrefixOf line then
    { st with addr := (words line).getD 1 [] }
  else if "ARRAY_SIZE".data.isPrefixOf line then
    { st with array_size := (words line).getD 1 [] }
  else if "SYMBOL_LINK".data.isPrefixOf line then
    { st with symbol := extract_symbol line }
  else st

/-- One iteration of the parse_measurement_like loop. -/
def mstep (st : MState) (line : Str) : MState :=
  match words line with
  | t0 :: ts =>
    if t0 ∈ DTOK then
      { st with
        dtype := t0,
        conversion := match ts with | c1 :: _ => c1 | [] => st.conversion,
        params := match ts with | _ :: c2 :: cs => c2 :: cs | _ => st.params }
    else mrest st line
  | [] => mrest st line

/-- The whole loop of parse_measurement_like. -/
def mfold (ls : List Str) : MState :=
  ls.foldl mstep ⟨[], [], [], [], [], []⟩

/-- parse_measurement_like from data_utils.py (fields shared by
MEASUREMENT and array-typed MEASUREMENT). -/
def parse_measurement_like (nm d : Str) (ls : List Str) : Record :=
  let st := mfold ls
  let mp := if st.array_size ≠ [] then "ARRAY_SIZE=".data ++ st.array_size
            else joinWords st.params
  [("Name", nm),
   ("Comment", clean_text d),
   ("Data_Type", st.dtype),
   ("Conversion", st.conversion),
   ("Measurement_Params", mp),
   ("ECU_Address", st.addr),
   ("Symbol_Link", st.symbol),
   ("Type", if st.array_size ≠ [] then "MeasurementArray".data else "Measurement".data)]

/-- parse_measurement from data_utils.py. -/
def parse_measurement (nm d : Str) (ls : List Str) : Record :=
  parse_measurement_like nm d ls

/-- parse_measurement_array from data_utils.py: force the Type tag and
make sure ARRAY_SIZE shows in Measurement_Params even when the block
had no ARRAY_SIZE line. -/
def parse_measurement_array (nm d : Str) (ls : List Str) : Record :=
  let data0 := parse_measurement_like nm d ls
  let data1 := dictInsert data0 "Type" "MeasurementArray".data
  if listContains (rget data1 "Measurement_Params") "ARRAY_SIZE=".data then data1
  else dictInsert data1 "Measurement_Params"
         (trim (rget data1 "Measurement_Params" ++ " ARRAY_SIZE=?".data))

/-- One iteration of the parse_characteristic loop: the pair is the
(value, symbol) local-variable state. -/
def cstep (st : Str × Str) (line : Str) : Str × Str :=
  if "VALUE".data.isPrefixOf line then
    match words line with
    | _ :: v :: _ => (v, st.2)
    | _ => st
  else if "SYMBOL_LINK".data.isPrefixOf line then (st.1, extract_symbol line)
  else st

/-- parse_characteristic from data_utils.py. -/
def parse_characteristic (nm d : Str) (ls : List Str) : Record :=
  let st := ls.foldl cstep ([], [])
  [("Type", "Characteristic".data),
   ("Name", nm),
   ("Comment", clean_text d),
   ("Value", st.1),
   ("Symbol_Link", st.2)]

/-- The MEASUREMENT dispatch of parse_a2l_file: array versus scalar is
decided by the presence of a stripped line starting with ARRAY_SIZE. -/
def parseMeasurementBlock (nm d : Str) (ls : List Str) : Record :=
  if ls.any (fun l => "ARRAY_SIZE".data.isPrefixOf (trim l)) then
    parse_measurement_array nm d ls
  else
    parse_measurement nm d ls

example : words " UBYTE  CONV P1 ".data = ["UBYTE".data, "CONV".data, "P1".data] := by decide
example : rget (parse_characteristic "N".data [] ["VALUE 0x40".data, "SYMBOL_LINK \"S_a\"".data])
    "Value" = "0x40".data := by decide
example : rget (parse_characteristic "N".data [] ["VALUE 0x40".data, "SYMBOL_LINK \"S_a\"".data])
    "Symbol_Link" = "S_a".data := by decide
example : rget (parse_measurement "N".data [] ["UBYTE CONV P1 P2".data, "ECU_ADDRESS 0x1".data])
    "Measurement_Params" = "P1 P2".data := by decide
example : rget (parse_measurement_array "N".data [] ["UBYTE CONV P1".data])
    "Measurement_Params" = "P1 ARRAY_SIZE=?".data := by decide
example : rget (parseMeasurementBlock "N".data [] ["UBYTE CONV P1".data, "ARRAY_SIZE 8".data])
    "Measurement_Params" = "ARRAY_SIZE=8".data := by decide

/-- Skip one-or-more whitespace characters (regex ws plus), returning
the remainder, or none when the input does not start with whitespace. -/
def ws1 (l : Str) : Option Str :=
  match l with
  | c :: cs => if isWs c then some (cs.dropWhile isWs) else none
  | [] => none

/-- Take a maximal nonempty run of characters satisfying p, with the
remainder, or none when the run is empty. -/
def tok1 (p : Char → Bool) (l : Str) : Option (Str × Str) :=
  let w := l.takeWhile p
  if w.isEmpty then none else some (w, l.dropWhile p)

/-- The optional quoted-description tail of the begin regex: ws plus, a
double quote, a nonempty run of non-quote characters, a double quote. -/
def descOpt (l : Str) : Option Str :=
  match ws1 l with
  | none => none
  | some r =>
    match r with
    | '"' :: r2 =>
      let d := r2.takeWhile (fun c => !(c == '"'))
      if d.isEmpty then none
      else if (r2.dropWhile (fun c => !(c == '"'))).isEmpty then none
      else some d
    | _ => none

/-- The begin_re match of parse_a2l_file: a line-anchored,
case-insensitive match of /begin, whitespace, a word (keyword),
whitespace, a non-whitespace run (name), and an optional quoted
description; mirrors greedy matching of the Python regex. -/
def matchBegin (l : Str) : Option (Str × Str × Option Str) :=
  if ciStarts "/begin".data l then
    match ws1 (l.drop 6) with
    | none => none
    | some r1 =>
      match tok1 isWordChar r1 with
      | none => none
      | some (kw, r2) =>
        match ws1 r2 with
        | none => none
        | some r3 =>
          match tok1 (fun c => !(isWs c)) r3 with
          | none => none
          | some (nm, r4) => some (kw, nm, descOpt r4)
  else none

/-- The end_re match of parse_a2l_file: case-insensitive /end,
whitespace, a word (keyword). -/
def matchEnd (l : Str) : Option Str :=
  if ciStarts "/end".data l then
    match ws1 (l.drop 4) with
    | none => none
    | some r1 =>
      match tok1 isWordChar r1 with
      | none => none
      | some (kw, _) => some kw
  else none

/-- Dispatch of a closed block on its (already uppercased) keyword:
the three recognized keywords produce a Record, everything else none. -/
def extractBlock (block nm d : Str) (ls : List Str) : Option Record :=
  if block = "CHARACTERISTIC".data then some (parse_characteristic nm d ls)
  else if block = "MEASUREMENT".data then some (parseMeasurementBlock nm d ls)
  else if block = "MEASUREMENT_ARRAY".data then some (parse_measurement_array nm d ls)
  else none

/-- Loop state of parse_a2l_file: the result dict plus the open-block
context (current keyword, name, description, buffered lines). -/
structure ScanState where
  data : Rstore
  current : Str
  name : Str
  desc : Str
  lines : List Str
deriving DecidableEq, Repr

/-- One iteration of the parse_a2l_file loop on one raw input line. -/
def step (st : ScanState) (raw : Str) : ScanState :=
  let line := trim raw
  if line = [] then st
  else
    match matchBegin line with
    | some (kw, nm, d) =>
      { st with current := upper kw, name := nm, desc := d.getD [], lines := [] }
    | none =>
      match matchEnd line with
      | some kw2 =>
        if st.current ≠ [] then
          let block := upper kw2
          let data1 :=
            if block = st.current then
              match extractBlock block st.name st.desc st.lines with
              | some r => dictInsert st.data st.name r
              | none => st.data
            else st.data
          { data := data1, current := [], name := [], desc := [], lines := [] }
        else st
      | none =>
        if st.current ≠ [] then { st with lines := st.lines ++ [line] } else st

/-- The initial loop state of parse_a2l_file. -/
def initState : ScanState := ⟨[], [], [], [], []⟩

/-- parse_a2l_file from data_utils.py, on the file given as its list of
raw lines. -/
def parse_a2l_file (file : List Str) : Rstore :=
  (file.foldl step initState).data

/-- Errors of load_data: ValueError for a wrong extension, an OS error
when the file cannot be opened or read. -/
inductive LoadError where
  | inputError
  | ioError
deriving DecidableEq, Repr

/-- load_data from data_utils.py: the extension check happens on the
path alone, before the file (modelled as an optional line list, none
when unreadable) is consulted. -/
def load_data (path : Str) (file : Option (List Str)) : Except LoadError Rstore :=
  if List.isSuffixOf ".a2l".data (lowerS path) then
    match file with
    | some ls => Except.ok (parse_a2l_file ls)
    | none => Except.error LoadError.ioError
  else Except.error LoadError.inputError

/-- The six searched record fields, in source order. -/
def searchKeys : List String :=
  ["Comment", "Symbol_Link", "Conversion", "Data_Type", "ECU_Address", "Measurement_Params"]

/-- The per-record match test of search_parameters, with the query
already lowercased: name containment, else any nonempty searched field
whose lowercased text contains the query. -/
def matchesQuery (q : Str) (nm : Str) (det : Record) : Bool :=
  listContains (lowerS nm) q ||
  searchKeys.any (fun k =>
    let v := rget det k
    !v.isEmpty && listContains (lowerS v) q)

/-- search_parameters from data_utils.py. -/
def search_parameters (data : Rstore) (query : Str) : Rstore :=
  let q := lowerS query
  data.foldl
    (fun out p => if matchesQuery q p.1 p.2 then dictInsert out p.1 p.2 else out) []

example : matchBegin "/begin CHARACTERISTIC KL_Spark \"Spark advance\"".data =
    some ("CHARACTERISTIC".data, "KL_Spark".data, some "Spark advance".data) := by decide
example : matchBegin "/BEGIN measurement X".data =
    some ("measurement".data, "X".data, none) := by decide
example : matchEnd "/end CHARACTERISTIC".data = some ("CHARACTERISTIC".data) := by decide
example : matchEnd "/begin M X".data = none := by decide
example : matchBegin "/end M".data = none := by decide
example :
    parse_a2l_file
      ["/begin CHARACTERISTIC KL_Spark \"Spark advance\"".data,
       "VALUE 0x4000A1".data,
       "".data,
       "SYMBOL_LINK \"KL_Spark_Sym\"".data,
       "/end CHARACTERISTIC".data] =
    [("KL_Spark".data,
      [("Type", "Characteristic".data),
       ("Name", "KL_Spark".data),
       ("Comment", "Spark advance".data),
       ("Value", "0x4000A1".data),
       ("Symbol_Link", "KL_Spark_Sym".data)])] := by decide

/- Lemmas on dictInsert and the search fold. -/

theorem listContains_nil_needle (hay : Str) : listContains hay [] = true := by
  cases hay with
  | nil => rfl
  | cons c t => rfl

theorem matchesQuery_nil (nm : Str) (det : Record) : matchesQuery [] nm det = true := by
  unfold matchesQuery
  rw [listContains_nil_needle]
  simp

theorem dictInsert_of_fresh {α β : Type} [BEq α] (m : List (α × β)) (k : α) (v : β)
    (h : m.any (fun p => p.1 == k) = false) : dictInsert m k v = m ++ [(k, v)] := by
  unfold dictInsert
  rw [h]
  simp

theorem search_fold_all (q : Str) :
    ∀ (ds acc : Rstore),
      (∀ p ∈ ds, matchesQuery q p.1 p.2 = true) →
      (∀ p ∈ ds, acc.any (fun x => x.1 == p.1) = false) →
      (ds.map Prod.fst).Nodup →
      ds.foldl (fun out p => if matchesQuery q p.1 p.2 then dictInsert out p.1 p.2 else out) acc
        = acc ++ ds := by
  intro ds
  induction ds with
  | nil =>
    intro acc _ _ _
    simp
  | cons d rest ih =>
    intro acc hall hdisj hnodup
    rw [List.foldl_cons, if_pos (hall d (by simp)),
        dictInsert_of_fresh _ _ _ (hdisj d (by simp))]
    have hnd : (rest.map Prod.fst).Nodup := by
      simp only [List.map_cons, List.nodup_cons] at hnodup
      exact hnodup.2
    have hhead : d.1 ∉ rest.map Prod.fst := by
      simp only [List.map_cons, List.nodup_cons] at hnodup
      exact hnodup.1
    have hstep := ih (acc ++ [d]) (fun p hp => hall p (by simp [hp]))
      (fun p hp => by
        rw [List.any_append]
        have h1 : acc.any (fun x => x.1 == p.1) = false := hdisj p (by simp [hp])
        have h2 : [d].any (fun x => x.1 == p.1) = false := by
          simp only [List.any_cons, List.any_nil, Bool.or_false]
          have hne : d.1 ≠ p.1 := by
            intro hcon
            exact hhead (hcon ▸ List.mem_map_of_mem Prod.fst hp)
          simpa using hne
        rw [h1, h2]
        rfl) hnd
    rw [hstep]
    simp

/-- C7. Searching with the empty query returns the store unchanged
(same cardinality and membership, no special-casing). -/
theorem search_empty_query (data : Rstore) (h : (data.map Prod.fst).Nodup) :
    search_parameters data [] = data := by
  have h1 : search_parameters data [] =
      data.foldl (fun out p => if matchesQuery [] p.1 p.2 then dictInsert out p.1 p.2 else out)
        [] := rfl
  rw [h1, search_fold_all [] data []
    (fun p _ => matchesQuery_nil p.1 p.2) (fun p _ => rfl) h]
  simp

/-- Witness for C7 at a concrete two-record store. -/
theorem search_empty_query_witness :
    search_parameters [("KL_A".data, []), ("KL_B".data, [])] [] =
      [("KL_A".data, []), ("KL_B".data, [])] :=
  search_empty_query [("KL_A".data, []), ("KL_B".data, [])] (by decide)

theorem mem_dictInsert {α β : Type} [BEq α] {x : α × β} {m : List (α × β)} {k : α} {v : β}
    (h : x ∈ dictInsert m k v) : x = (k, v) ∨ x ∈ m := by
  unfold dictInsert at h
  split at h
  · rcases List.mem_map.mp h with ⟨y, hy, hxy⟩
    by_cases hk : (y.1 == k) = true
    · left
      rw [← hxy]
      simp [hk]
    · right
      rw [← hxy]
      simp only [hk]
      simpa using hy
  · rcases List.mem_append.mp h with hy | hy
    · right; exact hy
    · left; simpa using hy

theorem mem_search_fold (q : Str) :
    ∀ (ds acc : Rstore) (x : Str × Record),
      x ∈ ds.foldl
        (fun out p => if matchesQuery q p.1 p.2 then dictInsert out p.1 p.2 else out) acc →
      x ∈ acc ∨ (x ∈ ds ∧ matchesQuery q x.1 x.2 = true) := by
  intro ds
  induction ds with
  | nil =>
    intro acc x hx
    left
    simpa using hx
  | cons d rest ih =>
    intro acc x hx
    rw [List.foldl_cons] at hx
    rcases ih _ x hx with hacc | ⟨hmem, hmatch⟩
    · by_cases hq : matchesQuery q d.1 d.2 = true
      · rw [if_pos hq] at hacc
        rcases mem_dictInsert hacc with he | hm
        · right
          constructor
          · rw [he, Prod.mk.eta]
            exact List.mem_cons_self _ _
          · rw [he]
            simpa using hq
        · left; exact hm
      · rw [if_neg hq] at hacc
        left
        exact hacc
    · right
      exact ⟨List.mem_cons_of_mem _ hmem, hmatch⟩

/-- C9. Characteristic records carry none of the four
measurement-specific keys, and search never needs them: any record in
a search result for a nonempty query matched through its name or
through a field that is present and nonempty. -/
theorem search_safe_on_missing_fields :
    (∀ nm d ls, (parse_characteristic nm d ls).map Prod.fst =
       ["Type", "Name", "Comment", "Value", "Symbol_Link"]) ∧
    (∀ (data : Rstore) (q : Str) (nm : Str) (det : Record),
       q ≠ [] → (nm, det) ∈ search_parameters data q →
       listContains (lowerS nm) (lowerS q) = true ∨
       ∃ k ∈ searchKeys, rget det k ≠ [] ∧
         listContains (lowerS (rget det k)) (lowerS q) = true) := by
  constructor
  · intro nm d ls
    rfl
  · intro data q nm det hq hmem
    have hx := mem_search_fold (lowerS q) data [] (nm, det) hmem
    rcases hx with habs | ⟨hmem2, hmatch⟩
    · simp at habs
    · unfold matchesQuery at hmatch
      rw [Bool.or_eq_true] at hmatch
      rcases hmatch with hname | hfield
    -- name branch
      · left
        exact hname
      · right
        rcases List.any_eq_true.mp hfield with ⟨k, hk, hcond⟩
        rw [Bool.and_eq_true] at hcond
        rcases hcond with ⟨h1, h2⟩
        refine ⟨k, hk, ?_, h2⟩
        intro hcon
        rw [hcon] at h1
        simp at h1

/-- Witness for C9 at a concrete store, query and record. -/
theorem search_safe_on_missing_fields_witness :
    listContains (lowerS "KL_A".data) (lowerS "B".data) = true ∨
    ∃ k ∈ searchKeys, rget [("Comment", "big".data)] k ≠ [] ∧
      listContains (lowerS (rget [("Comment", "big".data)] k)) (lowerS "B".data) = true :=
  search_safe_on_missing_fields.2 [("KL_A".data, [("Comment", "big".data)])]
    "B".data "KL_A".data [("Comment", "big".data)] (by decide) (by decide)

/-- C8. load_data fails with the wrong-extension error exactly when the
lowercased path does not end in ".a2l", independently of the file
contents (so before any read; a readable or unreadable file makes no
difference, and a correct extension never produces this error). -/
theorem load_error_iff_extension (path : Str) (file : Option (List Str)) :
    load_data path file = Except.error LoadError.inputError ↔
    ¬ (List.isSuffixOf ".a2l".data (lowerS path) = true) := by
  unfold load_data
  split
  · rename_i h
    constructor
    · intro hc
      rcases file with _ | ls
      · exact absurd hc (by simp)
      · exact absurd hc (by simp)
    · intro hc
      exact absurd h hc
  · rename_i h
    simp [h]

/- Claim C4: the VALUE test of parse_characteristic is a string-prefix
test, not a first-token test. -/

/-- C4 counterexample: a line whose first token is VALUEX, not VALUE,
still overwrites Value, so the claimed last-exact-VALUE-line semantics
fails at this input (the only exact VALUE line carries 1, yet the
extracted Value is 2). -/
theorem value_prefix_counterexample :
    rget (parse_characteristic "KL_X".data [] ["VALUE 1".data, "VALUEX 2".data]) "Value"
      = "2".data ∧
    (words "VALUEX 2".data).getD 0 [] ≠ "VALUE".data ∧
    (words "VALUE 1".data).getD 0 [] = "VALUE".data ∧
    ¬ (("2".data : Str) = "1".data) := by decide

theorem cstep_fst_preserved (st : Str × Str) (l : Str)
    (h : "VALUE".data.isPrefixOf l = true → (words l).length < 2) :
    (cstep st l).1 = st.1 := by
  unfold cstep
  by_cases hp : "VALUE".data.isPrefixOf l = true
  · rw [if_pos hp]
    rcases hw : words l with _ | ⟨t, ts⟩
    · rfl
    · rcases ts with _ | ⟨v, rest⟩
      · rfl
      · have hlen := h hp
        rw [hw] at hlen
        simp at hlen
        omega
  · rw [if_neg hp]
    by_cases hs : "SYMBOL_LINK".data.isPrefixOf l = true
    · rw [if_pos hs]
    · rw [if_neg hs]

theorem foldl_cstep_fst (bs : List Str) :
    ∀ st, (∀ l ∈ bs, "VALUE".data.isPrefixOf l = true → (words l).length < 2) →
      (bs.foldl cstep st).1 = st.1 := by
  induction bs with
  | nil => intro st _; rfl
  | cons b rest ih =>
    intro st h
    rw [List.foldl_cons, ih _ (fun l hl => h l (by simp [hl]))]
    exact cstep_fst_preserved st b (h b (by simp))

/-- C4 amended: any block line that starts with the character prefix
VALUE and splits into at least two tokens sets Value to its second
token; the last such line wins, whatever its exact first token is. -/
theorem value_last_prefix_line (nm d : Str) (as bs : List Str) (l t v : Str)
    (rest : List Str)
    (hl : "VALUE".data.isPrefixOf l = true)
    (hw : words l = t :: v :: rest)
    (hbs : ∀ l' ∈ bs, "VALUE".data.isPrefixOf l' = true → (words l').length < 2) :
    rget (parse_characteristic nm d (as ++ l :: bs)) "Value" = v := by
  have hr : rget (parse_characteristic nm d (as ++ l :: bs)) "Value"
      = ((as ++ l :: bs).foldl cstep ([], [])).1 := rfl
  rw [hr, List.foldl_append, List.foldl_cons, foldl_cstep_fst bs _ hbs]
  unfold cstep
  rw [if_pos hl, hw]

/-- Witness for the amended C4 at a concrete block. -/
theorem value_last_prefix_line_witness :
    rget (parse_characteristic "KL_W".data []
        (["SYMBOL_LINK \"S_x\"".data] ++ "VALUE 7".data :: ["VALUE".data])) "Value"
      = "7".data :=
  value_last_prefix_line "KL_W".data [] ["SYMBOL_LINK \"S_x\"".data] ["VALUE".data]
    "VALUE 7".data "VALUE".data "7".data [] (by decide) (by decide) (by decide)

/- Claim C10: interaction of two data-type lines inside one
measurement-like block. -/

theorem mstep_dtok (st : MState) (l t : Str) (ts : List Str)
    (hw : words l = t :: ts) (ht : t ∈ DTOK) :
    mstep st l = { st with
      dtype := t,
      conversion := (match ts with | c1 :: _ => c1 | [] => st.conversion),
      params := (match ts with | _ :: c2 :: cs => c2 :: cs | _ => st.params) } := by
  unfold mstep
  split
  · rename_i t0 ts' heq
    rw [hw] at heq
    injection heq with e1 e2
    subst e1
    subst e2
    rw [if_pos ht]
    rcases ts with _ | ⟨a, ts'⟩
    · rfl
    · rcases ts' with _ | ⟨b, ts''⟩ <;> rfl
  · rename_i heq
    rw [hw] at heq
    cases heq

/-- C10. In a measurement-like block holding two data-type lines, the
later line always wins Data_Type; when it has no second token the
Conversion of the earlier line is kept; when it has fewer than three
tokens the residual parameter list of the earlier line is kept. -/
theorem measurement_two_dtype_lines (nm d l1 l2 d1 c1 : Str) (ps1 : List Str)
    (d2 : Str) (ts2 : List Str)
    (h1 : words l1 = d1 :: c1 :: ps1) (hd1 : d1 ∈ DTOK)
    (h2 : words l2 = d2 :: ts2) (hd2 : d2 ∈ DTOK) :
    rget (parse_measurement_like nm d [l1, l2]) "Data_Type" = d2 ∧
    (ts2 = [] → rget (parse_measurement_like nm d [l1, l2]) "Conversion" = c1) ∧
    (ts2.length < 2 →
      rget (parse_measurement_like nm d [l1, l2]) "Measurement_Params" = joinWords ps1) := by
  have hDT : rget (parse_measurement_like nm d [l1, l2]) "Data_Type"
      = (mfold [l1, l2]).dtype := rfl
  have hCV : rget (parse_measurement_like nm d [l1, l2]) "Conversion"
      = (mfold [l1, l2]).conversion := rfl
  have hMP : rget (parse_measurement_like nm d [l1, l2]) "Measurement_Params"
      = (if (mfold [l1, l2]).array_size ≠ []
         then "ARRAY_SIZE=".data ++ (mfold [l1, l2]).array_size
         else joinWords (mfold [l1, l2]).params) := rfl
  have hfold : mfold [l1, l2] = mstep (mstep ⟨[], [], [], [], [], []⟩ l1) l2 := rfl
  have hst1 : mstep (⟨[], [], [], [], [], []⟩ : MState) l1 = ⟨d1, c1, ps1, [], [], []⟩ := by
    rw [mstep_dtok _ l1 d1 (c1 :: ps1) h1 hd1]
    rcases ps1 with _ | ⟨p1, ps⟩ <;> rfl
  rcases ts2 with _ | ⟨c2, ts2'⟩
  · have hst2 : mstep (⟨d1, c1, ps1, [], [], []⟩ : MState) l2 = ⟨d2, c1, ps1, [], [], []⟩ := by
      rw [mstep_dtok _ l2 d2 [] h2 hd2]
    rw [hfold, hst1, hst2] at hDT hCV hMP
    refine ⟨hDT, fun _ => hCV, fun _ => ?_⟩
    rw [hMP]
    simp
  · rcases ts2' with _ | ⟨p2, ps2⟩
    · have hst2 : mstep (⟨d1, c1, ps1, [], [], []⟩ : MState) l2
          = ⟨d2, c2, ps1, [], [], []⟩ := by
        rw [mstep_dtok _ l2 d2 [c2] h2 hd2]
      rw [hfold, hst1, hst2] at hDT hCV hMP
      refine ⟨hDT, fun hcon => by simp at hcon, fun _ => ?_⟩
      rw [hMP]
      simp
    · have hst2 : mstep (⟨d1, c1, ps1, [], [], []⟩ : MState) l2
          = ⟨d2, c2, p2 :: ps2, [], [], []⟩ := by
        rw [mstep_dtok _ l2 d2 (c2 :: p2 :: ps2) h2 hd2]
      rw [hfold, hst1, hst2] at hDT hCV hMP
      refine ⟨hDT, fun hcon => by simp at hcon, fun hlen => ?_⟩
      simp at hlen
      omega

/-- Witness for C10 at a concrete two-line block. -/
theorem measurement_two_dtype_lines_witness :
    rget (parse_measurement_like "KL_M".data [] ["UBYTE CONV P1".data, "SWORD".data])
        "Data_Type" = "SWORD".data ∧
    (([] : List Str) = [] →
      rget (parse_measurement_like "KL_M".data [] ["UBYTE CONV P1".data, "SWORD".data])
        "Conversion" = "CONV".data) ∧
    (([] : List Str).length < 2 →
      rget (parse_measurement_like "KL_M".data [] ["UBYTE CONV P1".data, "SWORD".data])
        "Measurement_Params" = joinWords ["P1".data]) :=
  measurement_two_dtype_lines "KL_M".data [] "UBYTE CONV P1".data "SWORD".data
    "UBYTE".data "CONV".data ["P1".data] "SWORD".data []
    (by decide) (by decide) (by decide) (by decide)

/- Claims C2 and C3: where the ARRAY_SIZE sentinel actually lands in
Measurement_Params. -/

theorem isPrefixOf_append_self (xs ys : Str) : xs.isPrefixOf (xs ++ ys) = true := by
  induction xs with
  | nil =>
    cases ys with
    | nil => rfl
    | cons b bs => rfl
  | cons c cs ih => simp [List.isPrefixOf, ih]

theorem listContains_of_pre (hay needle : Str) (h : needle.isPrefixOf hay = true) :
    listContains hay needle = true := by
  cases hay with
  | nil =>
    cases needle with
    | nil => rfl
    | cons c cs => simp [List.isPrefixOf] at h
  | cons c t =>
    unfold listContains
    rw [h]
    rfl

theorem trimR_append_last (xs : Str) (c : Char) (h : isWs c = false) :
    trimR (xs ++ [c]) = xs ++ [c] := by
  rw [trimR_eq_reverse_dropWhile, List.reverse_append]
  simp [List.dropWhile_cons, h]

theorem dropWhile_keeps_suffix (p : Char → Bool) (s : Str) :
    ∀ z : Str, s ≠ [] → (∀ c ∈ s, p c = false) → s <:+ z → s <:+ z.dropWhile p := by
  intro z
  induction z with
  | nil =>
    intro hs _ h
    rcases h with ⟨t, ht⟩
    rcases List.append_eq_nil.mp ht with ⟨_, h2⟩
    exact absurd h2 hs
  | cons c z' ih =>
    intro hs hmem h
    by_cases hc : p c = true
    · rw [List.dropWhile_cons]
      simp only [hc, if_pos]
      rcases (List.suffix_cons_iff.mp h) with he | hsuf
    -- the whole-list case puts c inside s, contradicting hmem
      · exfalso
        have hcs : c ∈ s := by rw [he]; simp
        rw [hmem c hcs] at hc
        cases hc
      · exact ih hs hmem hsuf
    · rw [List.dropWhile_cons]
      simp only [Bool.not_eq_true] at hc
      simp only [hc]
      exact h

theorem sentinel_suffix (x : Str) :
    "ARRAY_SIZE=?".data <:+ trim (x ++ " ARRAY_SIZE=?".data) := by
  have hsz : ("ARRAY_SIZE=?".data : Str) <:+ x ++ " ARRAY_SIZE=?".data := by
    refine ⟨x ++ [' '], ?_⟩
    rw [List.append_assoc]
    rfl
  have h1 : "ARRAY_SIZE=?".data <:+ (x ++ " ARRAY_SIZE=?".data).dropWhile isWs :=
    dropWhile_keeps_suffix isWs _ _ (by decide) (by decide) hsz
  rcases h1 with ⟨u, hu⟩
  rw [trim, ← hu]
  have hsplit : u ++ "ARRAY_SIZE=?".data = (u ++ "ARRAY_SIZE=".data) ++ ['?'] := by
    rw [List.append_assoc]
    rfl
  rw [hsplit, trimR_append_last _ '?' (by decide)]
  refine ⟨u, ?_⟩
  rw [List.append_assoc]
  rfl

/-- C2 counterexample: a MEASUREMENT_ARRAY block without ARRAY_SIZE but
with a residual parameter token ends with the sentinel appended after
the residual tokens, so Measurement_Params does not begin with it. -/
theorem sentinel_position_counterexample :
    parse_a2l_file
      ["/begin MEASUREMENT_ARRAY KL_Arr \"arr\"".data,
       "UBYTE CONV P1".data,
       "/end MEASUREMENT_ARRAY".data] =
      [("KL_Arr".data,
        [("Name", "KL_Arr".data), ("Comment", "arr".data), ("Data_Type", "UBYTE".data),
         ("Conversion", "CONV".data), ("Measurement_Params", "P1 ARRAY_SIZE=?".data),
         ("ECU_Address", []), ("Symbol_Link", []), ("Type", "MeasurementArray".data)])] ∧
    "ARRAY_SIZE=?".data.isPrefixOf "P1 ARRAY_SIZE=?".data = false := by decide

/-- C2 amended: for a MEASUREMENT_ARRAY extraction whose parameter
string does not already carry ARRAY_SIZE= (in particular any block with
no ARRAY_SIZE line), the record is a MeasurementArray and the sentinel
ARRAY_SIZE=? is a suffix of Measurement_Params: residual tokens come
before it, not after it. -/
theorem sentinel_appended_at_end (nm d : Str) (ls : List Str)
    (h : listContains
        (rget (dictInsert (parse_measurement_like nm d ls) "Type" "MeasurementArray".data)
          "Measurement_Params")
        "ARRAY_SIZE=".data = false) :
    rget (parse_measurement_array nm d ls) "Type" = "MeasurementArray".data ∧
    "ARRAY_SIZE=?".data <:+ rget (parse_measurement_array nm d ls) "Measurement_Params" := by
  have hcond : ¬ (listContains
      (rget (dictInsert (parse_measurement_like nm d ls) "Type" "MeasurementArray".data)
        "Measurement_Params")
      "ARRAY_SIZE=".data = true) := by
    rw [h]
    exact Bool.false_ne_true
  have harr : parse_measurement_array nm d ls =
      dictInsert (dictInsert (parse_measurement_like nm d ls) "Type" "MeasurementArray".data)
        "Measurement_Params"
        (trim (rget (dictInsert (parse_measurement_like nm d ls) "Type"
            "MeasurementArray".data) "Measurement_Params" ++ " ARRAY_SIZE=?".data)) := by
    simp only [parse_measurement_array]
    rw [if_neg hcond]
  constructor
  · rw [harr]
    rfl
  · rw [harr]
    exact sentinel_suffix _

/-- Witness for the amended C2 at a concrete block. -/
theorem sentinel_appended_at_end_witness :
    rget (parse_measurement_array "KL_A".data [] ["UBYTE CONV P1".data]) "Type"
      = "MeasurementArray".data ∧
    "ARRAY_SIZE=?".data <:+
      rget (parse_measurement_array "KL_A".data [] ["UBYTE CONV P1".data])
        "Measurement_Params" :=
  sentinel_appended_at_end "KL_A".data [] ["UBYTE CONV P1".data] (by decide)

/-- C3 counterexample: a MEASUREMENT block with an ARRAY_SIZE line that
has no size token is typed MeasurementArray, but its Measurement_Params
does not start with ARRAY_SIZE= (the sentinel lands at the end). -/
theorem array_size_no_token_counterexample :
    rget (parseMeasurementBlock "KL_M".data [] ["UBYTE CONV P1".data, "ARRAY_SIZE".data])
        "Type" = "MeasurementArray".data ∧
    rget (parseMeasurementBlock "KL_M".data [] ["UBYTE CONV P1".data, "ARRAY_SIZE".data])
        "Measurement_Params" = "P1 ARRAY_SIZE=?".data ∧
    "ARRAY_SIZE=".data.isPrefixOf "P1 ARRAY_SIZE=?".data = false := by decide

/-- C3 amended: a MEASUREMENT block with an ARRAY_SIZE line is always
typed MeasurementArray, and Measurement_Params starts with ARRAY_SIZE=
whenever the extracted array size is nonempty, that is whenever the
last ARRAY_SIZE line carries a size token; with no size token the
sentinel is instead appended after the residual parameters. -/
theorem array_size_line_reclassifies (nm d : Str) (ls : List Str)
    (hroute : ls.any (fun l => "ARRAY_SIZE".data.isPrefixOf (trim l)) = true)
    (hsz : (mfold ls).array_size ≠ []) :
    rget (parseMeasurementBlock nm d ls) "Type" = "MeasurementArray".data ∧
    "ARRAY_SIZE=".data.isPrefixOf
      (rget (parseMeasurementBlock nm d ls) "Measurement_Params") = true := by
  have hr : parseMeasurementBlock nm d ls = parse_measurement_array nm d ls := by
    unfold parseMeasurementBlock
    rw [hroute]
    rfl
  have hmp0 : rget (dictInsert (parse_measurement_like nm d ls) "Type"
      "MeasurementArray".data) "Measurement_Params"
      = (if (mfold ls).array_size ≠ []
         then "ARRAY_SIZE=".data ++ (mfold ls).array_size
         else joinWords (mfold ls).params) := rfl
  have hmp1 : rget (dictInsert (parse_measurement_like nm d ls) "Type"
      "MeasurementArray".data) "Measurement_Params"
      = "ARRAY_SIZE=".data ++ (mfold ls).array_size := by
    rw [hmp0, if_pos hsz]
  have hcond : listContains
      (rget (dictInsert (parse_measurement_like nm d ls) "Type" "MeasurementArray".data)
        "Measurement_Params")
      "ARRAY_SIZE=".data = true := by
    rw [hmp1]
    exact listContains_of_pre _ _ (isPrefixOf_append_self _ _)
  have harr : parse_measurement_array nm d ls =
      dictInsert (parse_measurement_like nm d ls) "Type" "MeasurementArray".data := by
    simp only [parse_measurement_array]
    rw [if_pos hcond]
  constructor
  · rw [hr, harr]
    rfl
  · rw [hr, harr, hmp1]
    exact isPrefixOf_append_self _ _

/-- Witness for the amended C3 at a concrete block. -/
theorem array_size_line_reclassifies_witness :
    rget (parseMeasurementBlock "KL_M2".data [] ["ARRAY_SIZE 4".data]) "Type"
      = "MeasurementArray".data ∧
    "ARRAY_SIZE=".data.isPrefixOf
      (rget (parseMeasurementBlock "KL_M2".data [] ["ARRAY_SIZE 4".data])
        "Measurement_Params") = true :=
  array_size_line_reclassifies "KL_M2".data [] ["ARRAY_SIZE 4".data]
    (by decide) (by decide)

/- Claim C1: what really happens on a mismatched /end inside an open
block. -/

/-- C1 counterexample: a mismatched /end while a CHARACTERISTIC block
is open does not leave the scanner in the same open-block state; it
resets the context, so the later matching /end is itself stray and the
block is never handed to the extractor. -/
theorem mismatched_end_counterexample :
    ((["/begin CHARACTERISTIC KL_C \"c\"".data, "VALUE 1".data].foldl step
        initState).current = "CHARACTERISTIC".data) ∧
    ((["/begin CHARACTERISTIC KL_C \"c\"".data, "VALUE 1".data,
       "/end MEASUREMENT".data].foldl step initState).current = []) ∧
    parse_a2l_file
      ["/begin CHARACTERISTIC KL_C \"c\"".data, "VALUE 1".data,
       "/end MEASUREMENT".data, "/end CHARACTERISTIC".data] = [] := by decide

/-- C1 amended: a mismatched /end inside an open block is not ignored:
it abandons the open block, resetting the scanner to the no-open-block
state with the store unchanged, without emitting anything for the
abandoned block. -/
theorem mismatched_end_aborts_block (st : ScanState) (raw : Str) (kw : Str)
    (hcur : st.current ≠ [])
    (hne : trim raw ≠ [])
    (hnb : matchBegin (trim raw) = none)
    (hend : matchEnd (trim raw) = some kw)
    (hmis : upper kw ≠ st.current) :
    step st raw = { data := st.data, current := [], name := [], desc := [], lines := [] } := by
  unfold step
  simp only [hnb, hend]
  rw [if_neg hne, if_pos hcur, if_neg hmis]

/-- Witness for the amended C1 at a concrete scanner state and line. -/
theorem mismatched_end_aborts_block_witness :
    step (ScanState.mk [] "CHARACTERISTIC".data "KL_C".data "c".data ["VALUE 1".data])
        "/end MEASUREMENT".data
      = { data := [], current := [], name := [], desc := [], lines := [] } :=
  mismatched_end_aborts_block
    (ScanState.mk [] "CHARACTERISTIC".data "KL_C".data "c".data ["VALUE 1".data])
    "/end MEASUREMENT".data "MEASUREMENT".data
    (by decide) (by decide) (by decide) (by decide) (by decide)

/- Claim C5: duplicate names across two recognized blocks. First the
line constructors for a well-formed block and helper facts about the
regex-style matchers on them. -/

/-- A /begin line as written in an A2L file for keyword kw, name nm and
quoted description d. -/
def beginLine (kw nm d : Str) : Str :=
  "/begin ".data ++ (kw ++ (' ' :: (nm ++ (' ' :: ('"' :: (d ++ ['"']))))))

/-- A matching /end line for keyword kw. -/
def endLine (kw : Str) : Str := "/end ".data ++ kw

/-- The raw lines of a whole block. -/
def blockLines (kw nm d : Str) (ls : List Str) : List Str :=
  beginLine kw nm d :: ls ++ [endLine kw]

theorem takeWhile_all_stop (p : Char → Bool) (x : Str) (s : Char) (y : Str)
    (hx : ∀ c ∈ x, p c = true) (hs : p s = false) :
    List.takeWhile p (x ++ s :: y) = x := by
  induction x with
  | nil =>
    show List.takeWhile p (s :: y) = []
    rw [List.takeWhile_cons]
    simp [hs]
  | cons a t ih =>
    show List.takeWhile p (a :: (t ++ s :: y)) = a :: t
    rw [List.takeWhile_cons]
    simp only [hx a (by simp), if_pos]
    rw [ih (fun c hc => hx c (by simp [hc]))]

theorem dropWhile_all_stop (p : Char → Bool) (x : Str) (s : Char) (y : Str)
    (hx : ∀ c ∈ x, p c = true) (hs : p s = false) :
    List.dropWhile p (x ++ s :: y) = s :: y := by
  induction x with
  | nil =>
    show List.dropWhile p (s :: y) = s :: y
    rw [List.dropWhile_cons]
    simp [hs]
  | cons a t ih =>
    show List.dropWhile p (a :: (t ++ s :: y)) = s :: y
    rw [List.dropWhile_cons]
    simp only [hx a (by simp), if_pos]
    exact ih (fun c hc => hx c (by simp [hc]))

theorem takeWhile_all (p : Char → Bool) (x : Str) (hx : ∀ c ∈ x, p c = true) :
    List.takeWhile p x = x := by
  induction x with
  | nil => rfl
  | cons a t ih =>
    rw [List.takeWhile_cons]
    simp only [hx a (by simp), if_pos]
    rw [ih (fun c hc => hx c (by simp [hc]))]

theorem dropWhile_all (p : Char → Bool) (x : Str) (hx : ∀ c ∈ x, p c = true) :
    List.dropWhile p x = [] := by
  induction x with
  | nil => rfl
  | cons a t ih =>
    rw [List.dropWhile_cons]
    simp only [hx a (by simp), if_pos]
    exact ih (fun c hc => hx c (by simp [hc]))

theorem dropWhile_eq_self_of_head (p : Char → Bool) (x y : Str) (hx : x ≠ [])
    (h : ∀ c ∈ x, p c = false) : List.dropWhile p (x ++ y) = x ++ y := by
  rcases List.exists_cons_of_ne_nil hx with ⟨a, t, ha⟩
  subst ha
  show List.dropWhile p (a :: (t ++ y)) = (a :: t) ++ y
  rw [List.dropWhile_cons]
  simp [h a (by simp)]

theorem tok1_exact (p : Char → Bool) (x : Str) (s : Char) (y : Str)
    (hx : x ≠ []) (hall : ∀ c ∈ x, p c = true) (hs : p s = false) :
    tok1 p (x ++ s :: y) = some (x, s :: y) := by
  simp only [tok1]
  rw [takeWhile_all_stop p x s y hall hs, dropWhile_all_stop p x s y hall hs]
  rcases List.exists_cons_of_ne_nil hx with ⟨a, t, ha⟩
  subst ha
  rfl

theorem tok1_all (p : Char → Bool) (x : Str) (hx : x ≠ [])
    (hall : ∀ c ∈ x, p c = true) : tok1 p x = some (x, []) := by
  simp only [tok1]
  rw [takeWhile_all p x hall, dropWhile_all p x hall]
  rcases List.exists_cons_of_ne_nil hx with ⟨a, t, ha⟩
  subst ha
  rfl

theorem wordChar_not_ws (c : Char) (h : isWordChar c = true) : isWs c = false := by
  by_contra hw
  simp only [Bool.not_eq_false] at hw
  unfold isWs at hw
  simp only [Bool.or_eq_true, beq_iff_eq] at hw
  rcases hw with ((((h1 | h1) | h1) | h1) | h1) | h1 <;> subst h1 <;>
    exact absurd h (by decide)

theorem matchBegin_beginLine (kw nm d : Str)
    (hkw1 : kw ≠ []) (hkw2 : ∀ c ∈ kw, isWordChar c = true)
    (hnm1 : nm ≠ []) (hnm2 : ∀ c ∈ nm, isWs c = false)
    (hd1 : d ≠ []) (hd2 : ∀ c ∈ d, (c == '"') = false) :
    matchBegin (beginLine kw nm d) = some (kw, nm, some d) := by
  have hci : ciStarts "/begin".data (beginLine kw nm d) = true := rfl
  have hd6 : (beginLine kw nm d).drop 6
      = ' ' :: (kw ++ (' ' :: (nm ++ (' ' :: ('"' :: (d ++ ['"'])))))) := rfl
  have hw1 : ws1 (' ' :: (kw ++ (' ' :: (nm ++ (' ' :: ('"' :: (d ++ ['"'])))))))
      = some (kw ++ (' ' :: (nm ++ (' ' :: ('"' :: (d ++ ['"'])))))) := by
    show some (List.dropWhile isWs (kw ++ (' ' :: (nm ++ (' ' :: ('"' :: (d ++ ['"']))))))) = _
    rw [dropWhile_eq_self_of_head isWs kw _ hkw1
      (fun c hc => wordChar_not_ws c (hkw2 c hc))]
  have ht1 : tok1 isWordChar (kw ++ (' ' :: (nm ++ (' ' :: ('"' :: (d ++ ['"']))))))
      = some (kw, ' ' :: (nm ++ (' ' :: ('"' :: (d ++ ['"']))))) :=
    tok1_exact isWordChar kw ' ' _ hkw1 hkw2 (by decide)
  have hw2 : ws1 (' ' :: (nm ++ (' ' :: ('"' :: (d ++ ['"'])))))
      = some (nm ++ (' ' :: ('"' :: (d ++ ['"'])))) := by
    show some (List.dropWhile isWs (nm ++ (' ' :: ('"' :: (d ++ ['"']))))) = _
    rw [dropWhile_eq_self_of_head isWs nm _ hnm1 (fun c hc => hnm2 c hc)]
  have ht2 : tok1 (fun c => !(isWs c)) (nm ++ (' ' :: ('"' :: (d ++ ['"']))))
      = some (nm, ' ' :: ('"' :: (d ++ ['"']))) :=
    tok1_exact _ nm ' ' _ hnm1 (fun c hc => by simp [hnm2 c hc]) (by decide)
  have hdo : descOpt (' ' :: ('"' :: (d ++ ['"']))) = some d := by
    unfold descOpt
    have hw3 : ws1 (' ' :: ('"' :: (d ++ ['"']))) = some ('"' :: (d ++ ['"'])) := by
      show some (List.dropWhile isWs ('"' :: (d ++ ['"']))) = _
      rw [List.dropWhile_cons, if_neg (by decide)]
    have htw : List.takeWhile (fun c => !(c == '"')) (d ++ ['"']) = d := by
      have h0 := takeWhile_all_stop (fun c => !(c == '"')) d '"' []
        (fun c hc => by simp [hd2 c hc]) (by decide)
      simpa using h0
    have hdw : List.dropWhile (fun c => !(c == '"')) (d ++ ['"']) = ['"'] := by
      have h0 := dropWhile_all_stop (fun c => !(c == '"')) d '"' []
        (fun c hc => by simp [hd2 c hc]) (by decide)
      simpa using h0
    rw [hw3]
    simp only [htw, hdw]
    rcases List.exists_cons_of_ne_nil hd1 with ⟨a, t, ha⟩
    subst ha
    rfl
  unfold matchBegin
  simp only [hci, hd6, hw1, ht1, hw2, ht2, hdo, if_true]

theorem matchEnd_endLine (kw : Str)
    (hkw1 : kw ≠ []) (hkw2 : ∀ c ∈ kw, isWordChar c = true) :
    matchEnd (endLine kw) = some kw := by
  have hci : ciStarts "/end".data (endLine kw) = true := rfl
  have hd4 : (endLine kw).drop 4 = ' ' :: kw := rfl
  have hw1 : ws1 (' ' :: kw) = some kw := by
    show some (List.dropWhile isWs kw) = _
    rcases List.exists_cons_of_ne_nil hkw1 with ⟨a, t, ha⟩
    subst ha
    rw [List.dropWhile_cons, if_neg]
    rw [wordChar_not_ws a (hkw2 a (by simp))]
    exact Bool.false_ne_true
  have ht1 : tok1 isWordChar kw = some (kw, []) := tok1_all isWordChar kw hkw1 hkw2
  unfold matchEnd
  simp only [hci, hd4, hw1, ht1, if_true]

theorem matchBegin_endLine (kw : Str) : matchBegin (endLine kw) = none := by
  have hci : ciStarts "/begin".data (endLine kw) = false := rfl
  unfold matchBegin
  simp only [hci]
  rfl

theorem beginLine_ne_nil (kw nm d : Str) : beginLine kw nm d ≠ [] := by
  simp [beginLine]

theorem endLine_ne_nil (kw : Str) : endLine kw ≠ [] := by
  simp [endLine]

theorem trim_beginLine (kw nm d : Str) : trim (beginLine kw nm d) = beginLine kw nm d := by
  have hshape : beginLine kw nm d
      = ("/begin ".data ++ (kw ++ (' ' :: (nm ++ (' ' :: ('"' :: d)))))) ++ ['"'] := by
    simp [beginLine, List.append_assoc]
  rw [trim]
  have hdw : List.dropWhile isWs (beginLine kw nm d) = beginLine kw nm d := by
    show List.dropWhile isWs ('/' :: ("begin ".data ++
        (kw ++ (' ' :: (nm ++ (' ' :: ('"' :: (d ++ ['"'])))))))) = _
    rw [List.dropWhile_cons, if_neg (by decide)]
    rfl
  rw [hdw, hshape, trimR_append_last _ '"' (by decide)]

theorem trim_endLine (kw : Str)
    (hkw1 : kw ≠ []) (hkw2 : ∀ c ∈ kw, isWordChar c = true) :
    trim (endLine kw) = endLine kw := by
  rcases List.eq_nil_or_concat kw with hnil | ⟨t, c, htc⟩
  · exact absurd hnil hkw1
  · rw [List.concat_eq_append] at htc
    subst htc
    rw [trim]
    have hdw : List.dropWhile isWs (endLine (t ++ [c])) = endLine (t ++ [c]) := by
      show List.dropWhile isWs ('/' :: ("end ".data ++ (t ++ [c]))) = _
      rw [List.dropWhile_cons, if_neg (by decide)]
      rfl
    rw [hdw]
    have hshape : endLine (t ++ [c]) = ("/end ".data ++ t) ++ [c] := by
      simp [endLine, List.append_assoc]
    rw [hshape, trimR_append_last ("/end ".data ++ t) c
      (wordChar_not_ws c (hkw2 c (by simp)))]

theorem step_neutral (st : ScanState) (l : Str) (hcur : st.current ≠ [])
    (ht : trim l = l) (hne : l ≠ [])
    (hb : matchBegin l = none) (he : matchEnd l = none) :
    step st l = { st with lines := st.lines ++ [l] } := by
  simp only [step]
  rw [ht]
  simp only [hb, he]
  rw [if_neg hne, if_pos hcur]

theorem scan_content (ls : List Str) :
    ∀ st : ScanState, st.current ≠ [] →
      (∀ l ∈ ls, trim l = l ∧ l ≠ [] ∧ matchBegin l = none ∧ matchEnd l = none) →
      ls.foldl step st = { st with lines := st.lines ++ ls } := by
  induction ls with
  | nil =>
    intro st _ _
    simp
  | cons l rest ih =>
    intro st hcur h
    obtain ⟨h1, h2, h3, h4⟩ := h l (by simp)
    rw [List.foldl_cons, step_neutral st l hcur h1 h2 h3 h4]
    rw [ih { st with lines := st.lines ++ [l] } hcur (fun l' hl' => h l' (by simp [hl']))]
    simp

theorem step_begin (st : ScanState) (kw nm d : Str)
    (hkw1 : kw ≠ []) (hkw2 : ∀ c ∈ kw, isWordChar c = true)
    (hnm1 : nm ≠ []) (hnm2 : ∀ c ∈ nm, isWs c = false)
    (hd1 : d ≠ []) (hd2 : ∀ c ∈ d, (c == '"') = false) :
    step st (beginLine kw nm d)
      = { st with current := upper kw, name := nm, desc := d, lines := [] } := by
  simp only [step]
  rw [trim_beginLine]
  rw [if_neg (beginLine_ne_nil kw nm d)]
  rw [matchBegin_beginLine kw nm d hkw1 hkw2 hnm1 hnm2 hd1 hd2]
  rfl

theorem step_end (st : ScanState) (kw : Str)
    (hkw1 : kw ≠ []) (hkw2 : ∀ c ∈ kw, isWordChar c = true)
    (hcur : st.current ≠ []) :
    step st (endLine kw) =
      { data := (if upper kw = st.current then
          (match extractBlock (upper kw) st.name st.desc st.lines with
           | some r => dictInsert st.data st.name r
           | none => st.data)
          else st.data),
        current := [], name := [], desc := [], lines := [] } := by
  simp only [step]
  rw [trim_endLine kw hkw1 hkw2]
  rw [if_neg (endLine_ne_nil kw)]
  simp only [matchBegin_endLine kw, matchEnd_endLine kw hkw1 hkw2]
  rw [if_pos hcur]

theorem upper_ne_nil (kw : Str) (hkw1 : kw ≠ []) : upper kw ≠ [] := by
  simp only [upper, ne_eq, List.map_eq_nil_iff]
  exact hkw1

theorem scan_block (st : ScanState) (kw nm d : Str) (ls : List Str)
    (hkw1 : kw ≠ []) (hkw2 : ∀ c ∈ kw, isWordChar c = true)
    (hnm1 : nm ≠ []) (hnm2 : ∀ c ∈ nm, isWs c = false)
    (hd1 : d ≠ []) (hd2 : ∀ c ∈ d, (c == '"') = false)
    (hls : ∀ l ∈ ls, trim l = l ∧ l ≠ [] ∧ matchBegin l = none ∧ matchEnd l = none) :
    (blockLines kw nm d ls).foldl step st =
      { data := (match extractBlock (upper kw) nm d ls with
                 | some r => dictInsert st.data nm r
                 | none => st.data),
        current := [], name := [], desc := [], lines := [] } := by
  unfold blockLines
  have h0 : List.foldl step st ((beginLine kw nm d :: ls) ++ [endLine kw])
      = List.foldl step (step st (beginLine kw nm d)) (ls ++ [endLine kw]) := rfl
  rw [h0, step_begin st kw nm d hkw1 hkw2 hnm1 hnm2 hd1 hd2, List.foldl_append]
  rw [scan_content ls { st with current := upper kw, name := nm, desc := d, lines := [] }
    (upper_ne_nil kw hkw1) hls]
  have hfold1 : List.foldl step
      ({ st with current := upper kw, name := nm, desc := d, lines := [] ++ ls })
      [endLine kw]
      = step ({ st with current := upper kw, name := nm, desc := d, lines := [] ++ ls })
          (endLine kw) := rfl
  rw [hfold1, step_end _ kw hkw1 hkw2 (upper_ne_nil kw hkw1)]
  simp

/-- C5. When two recognized, well-formed blocks in one file share the
same name, the parsed store holds exactly one record under that name,
namely the extraction of the later block. -/
theorem duplicate_name_last_block_wins (kw1 kw2 nm d1 d2 : Str) (ls1 ls2 : List Str)
    (r1 r2 : Record)
    (hkw11 : kw1 ≠ []) (hkw12 : ∀ c ∈ kw1, isWordChar c = true)
    (hkw21 : kw2 ≠ []) (hkw22 : ∀ c ∈ kw2, isWordChar c = true)
    (hnm1 : nm ≠ []) (hnm2 : ∀ c ∈ nm, isWs c = false)
    (hd11 : d1 ≠ []) (hd12 : ∀ c ∈ d1, (c == '"') = false)
    (hd21 : d2 ≠ []) (hd22 : ∀ c ∈ d2, (c == '"') = false)
    (hls1 : ∀ l ∈ ls1, trim l = l ∧ l ≠ [] ∧ matchBegin l = none ∧ matchEnd l = none)
    (hls2 : ∀ l ∈ ls2, trim l = l ∧ l ≠ [] ∧ matchBegin l = none ∧ matchEnd l = none)
    (hx1 : extractBlock (upper kw1) nm d1 ls1 = some r1)
    (hx2 : extractBlock (upper kw2) nm d2 ls2 = some r2) :
    parse_a2l_file (blockLines kw1 nm d1 ls1 ++ blockLines kw2 nm d2 ls2)
      = [(nm, r2)] := by
  unfold parse_a2l_file
  rw [List.foldl_append]
  rw [scan_block initState kw1 nm d1 ls1 hkw11 hkw12 hnm1 hnm2 hd11 hd12 hls1]
  simp only [hx1]
  rw [scan_block _ kw2 nm d2 ls2 hkw21 hkw22 hnm1 hnm2 hd21 hd22 hls2]
  simp only [hx2]
  show dictInsert (dictInsert ([] : Rstore) nm r1) nm r2 = [(nm, r2)]
  have h1 : dictInsert ([] : Rstore) nm r1 = [(nm, r1)] := rfl
  rw [h1]
  simp [dictInsert]

/-- Witness for C5 at a concrete pair of same-named blocks. -/
theorem duplicate_name_last_block_wins_witness :
    parse_a2l_file
      (blockLines "CHARACTERISTIC".data "KL_D".data "one".data ["VALUE 1".data]
        ++ blockLines "CHARACTERISTIC".data "KL_D".data "two".data ["VALUE 2".data])
      = [("KL_D".data,
          [("Type", "Characteristic".data), ("Name", "KL_D".data),
           ("Comment", "two".data), ("Value", "2".data), ("Symbol_Link", [])])] :=
  duplicate_name_last_block_wins "CHARACTERISTIC".data "CHARACTERISTIC".data
    "KL_D".data "one".data "two".data ["VALUE 1".data] ["VALUE 2".data]
    [("Type", "Characteristic".data), ("Name", "KL_D".data),
     ("Comment", "one".data), ("Value", "1".data), ("Symbol_Link", [])]
    [("Type", "Characteristic".data), ("Name", "KL_D".data),
     ("Comment", "two".data), ("Value", "2".data), ("Symbol_Link", [])]
    (by decide) (by decide) (by decide) (by decide) (by decide) (by decide)
    (by decide) (by decide) (by decide) (by decide) (by decide) (by decide)
    (by decide) (by decide)
